import Mathlib

/-!
# Verification of the F1 2026 regulation-impact simulator core

Shallow embedding of the prediction-and-uncertainty engine of the
`f1_aiml` repository: the Monte Carlo simulation loop of
`src/monte_carlo.py` (`MonteCarloSimulator.run`, `_perturb_features`,
`_summarise_predictions`), the training-time imputation of
`main.py::train_model`, the 2026 scenario transform of
`regulation_transform.py`, and the shape of the result artifact
`outputs/monte_carlo_results.json`.

Numeric values are embedded as rationals (`ℚ`); data frames as lists of
rows, a row being a function from column names to values; missing values
(NaN) as `Option ℚ`; the seeded NumPy generator as an explicit stream of
noise values threaded through the simulation.
-/

namespace F1Sim

/-! ## Python substring matching on column names

`_perturb_features` selects perturbation groups with Python's
`token in column_name` substring test.  `headMatch needle hay` checks
that `needle` is an initial segment of `hay`; `hasSub` scans all
suffixes, which is exactly Python's `in` on strings. -/

def headMatch : List Char → List Char → Bool
  | [], _ => true
  | _ :: _, [] => false
  | a :: as, b :: bs => a == b && headMatch as bs

def hasSub (needle : List Char) : List Char → Bool
  | [] => needle.isEmpty
  | b :: bs => headMatch needle (b :: bs) || hasSub needle bs

/-- Python's `tok in col` on strings. -/
def hasTok (tok col : String) : Bool := hasSub tok.toList col.toList

/-- `form_cols = [col for col in self.feature_columns if "pos" in col or "grid" in col]` -/
def isFormCol (c : String) : Bool := hasTok "pos" c || hasTok "grid" c

/-- `weather_cols`: any of the tokens `"rain"`, `"temp"`, `"wind"` occurs in the name. -/
def isWeatherCol (c : String) : Bool :=
  hasTok "rain" c || hasTok "temp" c || hasTok "wind" c

/-- `strategy_cols`: any of the tokens `"pit"`, `"fuel"`, `"compound"` occurs in the name. -/
def isStrategyCol (c : String) : Bool :=
  hasTok "pit" c || hasTok "fuel" c || hasTok "compound" c

/-! ## Configuration and data model -/

/-- `MonteCarloConfig` from `src/monte_carlo.py` / `config.yaml`. -/
structure MCConfig where
  n_simulations : ℤ
  driver_form_sigma : ℚ
  weather_sigma : ℚ
  strategy_delta : ℚ
  random_seed : ℕ

/-- A feature row: column name to numeric value. -/
abbrev Row : Type := String → ℚ

/-- A feature subset (one event): the rows of the data frame, one per entity. -/
abbrev Frame : Type := List Row

/-- A fitted predictor: XGBoost regression, which predicts each row of a
batch independently of the others. -/
abbrev Model : Type := Row → ℚ

/-- The noise values delivered by the seeded `numpy` generator during one
call to `run`, indexed by draw, row and (for the per-column loops) column:
`form s r` is the `N(0, 1)`-shaped draw for row `r` in simulation `s`
(scaled by `driver_form_sigma` at use site), `weather s c r` likewise for
the weather column loop, and `strat s c r` is the integer step
`rng.integers(-1, 2)` in `{-1, 0, 1}` for the strategy column loop. -/
structure NoiseEnv where
  form : ℕ → ℕ → ℚ
  weather : ℕ → String → ℕ → ℚ
  strat : ℕ → String → ℕ → ℚ

/-! ## `_perturb_features` -/

/-- One row of `_perturb_features` from `src/monte_carlo.py`: form columns
are multiplied by `(1 + noise)` with `noise ~ N(0, driver_form_sigma)`,
weather columns by `(1 + noise)` with `noise ~ N(0, weather_sigma)`, and
strategy columns get `rng.integers(-1, 2) * strategy_delta` added; the
three group updates are applied in that order, all other columns pass
through.  The realized noise values are explicit arguments. -/
def perturbRow (cfg : MCConfig) (formNoise : ℚ) (weatherNoise stratStep : String → ℚ)
    (row : Row) : Row := fun c =>
  let v0 := row c
  let v1 := if isFormCol c then v0 * (1 + formNoise) else v0
  let v2 := if isWeatherCol c then v1 * (1 + weatherNoise c) else v1
  if isStrategyCol c then v2 + stratStep c * cfg.strategy_delta else v2

/-! ## `MonteCarloSimulator.run` -/

/-- `np.clip(x, lo, hi)`. -/
def clip (lo hi x : ℚ) : ℚ := min hi (max lo x)

/-- The value stored at `predictions[sim_index][r]` by `run`:
`np.clip(self.model.predict(perturbed), 1.0, 20.0)` applied to row `r` of
the perturbed frame of simulation `s`. -/
def drawValue (cfg : MCConfig) (model : Model) (noise : NoiseEnv) (s r : ℕ) (row : Row) : ℚ :=
  clip 1 20 (model (perturbRow cfg
    (cfg.driver_form_sigma * noise.form s r)
    (fun c => cfg.weather_sigma * noise.weather s c r)
    (fun c => noise.strat s c r) row))

/-- One simulation draw: the row `predictions[sim_index]` of the accumulator. -/
def simDraw (cfg : MCConfig) (model : Model) (noise : NoiseEnv) (frame : Frame)
    (s : ℕ) : List ℚ :=
  frame.enum.map fun p => drawValue cfg model noise s p.1 p.2

/-- `n_sims = n_simulations or self.config.n_simulations`: Python's `or`
falls back to the configured default when the argument is `None` *or*
falsy (zero). -/
def nSims (cfg : MCConfig) : Option ℤ → ℤ
  | none => cfg.n_simulations
  | some k => if k = 0 then cfg.n_simulations else k

/-- Errors surfaced by the embedded `run`. `np.zeros((n_sims, _))` raises
`ValueError` on a negative dimension; no other statement of `run` raises. -/
inductive SimError where
  | negativeDraws
  deriving DecidableEq, Repr

/-- The accumulator built by `MonteCarloSimulator.run` before
summarisation: `predictions[s] = np.clip(model.predict(perturb(frame)), 1, 20)`
for `s` in `range(n_sims)`. -/
def runAccumulator (cfg : MCConfig) (model : Model) (noise : NoiseEnv) (frame : Frame)
    (nArg : Option ℤ) : Except SimError (List (List ℚ)) :=
  let n := nSims cfg nArg
  if n < 0 then .error .negativeDraws
  else .ok ((List.range n.toNat).map (simDraw cfg model noise frame))

/-! ## `_summarise_predictions` statistics -/

/-- `distribution.mean()`. -/
def listMean (l : List ℚ) : ℚ := l.sum / l.length

/-- `distribution.min()`. -/
def listMin : List ℚ → ℚ
  | [] => 0
  | h :: t => t.foldl min h

/-- `distribution.max()`. -/
def listMax : List ℚ → ℚ
  | [] => 0
  | h :: t => t.foldl max h

/-- The fractional position `h = (n - 1) * q / 100` at which
`np.percentile` reads a sorted array of length `n`. -/
def percPos (s : List ℚ) (q : ℚ) : ℚ := ((s.length : ℚ) - 1) * q / 100

/-- Linear interpolation of a sorted array at fractional position `h`:
`s[⌊h⌋] + (h - ⌊h⌋) * (s[⌈h⌉] - s[⌊h⌋])` — the default (`linear`)
interpolation method of `np.percentile`. -/
def interp (s : List ℚ) (h : ℚ) : ℚ :=
  s.getD ⌊h⌋.toNat 0 + (h - ⌊h⌋) * (s.getD ⌈h⌉.toNat 0 - s.getD ⌊h⌋.toNat 0)

/-- `np.percentile(a, q)` on an already sorted array. -/
def percSorted (s : List ℚ) (q : ℚ) : ℚ := interp s (percPos s q)

/-- `np.percentile(distribution, q)`: sort ascending, then interpolate. -/
def percentile (l : List ℚ) (q : ℚ) : ℚ :=
  percSorted (l.insertionSort (· ≤ ·)) q

/-- Number of draws with value `≤ τ`: the count behind
`(distribution <= τ).mean()`. -/
def countLe (τ : ℚ) (l : List ℚ) : ℕ := l.countP fun x => decide (x ≤ τ)

/-- The per-driver record built by `_summarise_predictions`.  All fields
are rationals; the `std` entry of the Python dict
(`distribution.std(ddof=0)`, a real square root not representable in `ℚ`)
is carried only through its key name in `statKeys` below — no claim
constrains its value. -/
structure DriverStats where
  mean : ℚ
  median : ℚ
  min : ℚ
  max : ℚ
  percentile_5 : ℚ
  percentile_95 : ℚ
  top3_probability : ℚ
  top5_probability : ℚ
  deriving DecidableEq, Repr

/-- The statistics `_summarise_predictions` computes from one driver's
column `distribution = predictions[:, idx]`.  `np.median` equals the 50th
linearly-interpolated percentile. -/
def summariseDistribution (dist : List ℚ) : DriverStats where
  mean := listMean dist
  median := percentile dist 50
  min := listMin dist
  max := listMax dist
  percentile_5 := percentile dist 5
  percentile_95 := percentile dist 95
  top3_probability := (countLe 3 dist : ℚ) / dist.length
  top5_probability := (countLe 5 dist : ℚ) / dist.length

/-- `_summarise_predictions(predictions, drivers)`: for
`idx, driver in enumerate(driver_list)`, summarise column `idx`. -/
def summarisePredictions (acc : List (List ℚ)) (drivers : List String) :
    List (String × DriverStats) :=
  drivers.enum.map fun p => (p.2, summariseDistribution (acc.map fun d => d.getD p.1 0))

/-- The keys of the per-driver dict literal in `_summarise_predictions`,
in source order. -/
def statKeys : List String :=
  ["mean", "std", "median", "min", "max", "percentile_5", "percentile_95",
   "top3_probability", "top5_probability"]

/-! ## `main.py::train_model` — missing-value imputation

`X = features[feature_columns].fillna(features[feature_columns].mean())`
runs on the full table handed to `train_model`, *before*
`train_test_split(X, y, test_size=0.2, random_state=42)`.  A column is a
list of `Option ℚ` entries, `none` being NaN. -/

/-- pandas `Series.mean()`: the mean of the non-missing entries. -/
def colMean (col : List (Option ℚ)) : ℚ :=
  col.reduceOption.sum / col.reduceOption.length

/-- The imputation `train_model` performs on one feature column: every
missing entry is replaced by `colMean` of the *whole* column of the table
passed in, computed before the train/holdout split. -/
def fillnaMean (col : List (Option ℚ)) : List ℚ :=
  col.map fun o => o.getD (colMean col)

/-- Written from the spec's words, for comparison with `fillnaMean`: the
imputation value the spec prescribes, "the column mean computed over the
training set only" — `colMean` of the sub-column of rows assigned to the
training fold. -/
def trainOnlyImputeValue (trainFoldCol : List (Option ℚ)) : ℚ := colMean trainFoldCol

/-! ## `regulation_transform.py` — the 2026 scenario transform -/

/-- Modelled from the spec: `regulation_transform.py` itself is not under
`src/` (only its docs and frontend mirrors are).  Spec §4.1 fixes the
future-scenario multiplier table — power-ratio ×3.33, aero-coefficient
×0.70 (30% drag reduction), weight-ratio ×0.962, fuel-flow-ratio ×0.75,
tire-grip-ratio ×0.94 — matching `docs/MONTE_CARLO_BENCHMARKING.md`
(3.33x power, 0.70x aero, 0.962x weight) and the column names of the
feature catalogue. -/
def REGULATION_MULTIPLIERS : List (String × ℚ) :=
  [("power_ratio", 333/100), ("aero_coeff", 70/100), ("weight_ratio", 962/1000),
   ("fuel_flow_ratio", 75/100), ("tire_grip_ratio", 94/100)]

/-- Modelled from the spec: `apply_2026_regulations` multiplies each listed
ruleset-parameter column by its multiplier and leaves every other column
unchanged. -/
def apply_2026_regulations (row : Row) : Row := fun c =>
  match REGULATION_MULTIPLIERS.lookup c with
  | some m => row c * m
  | none => row c

/-! ## The result artifact `outputs/monte_carlo_results.json` -/

/-- A value of the per-event object: either the event label or a scenario
block mapping driver names to their statistics. -/
inductive RaceField where
  | label : String → RaceField
  | scenario : List (String × DriverStats) → RaceField

/-- Modelled from the spec and the repository's own record of the writer
(`main.py::simulate_races` is not under `src/`): the "Output Structure"
section of the README shows the per-event object with keys `event_name`,
`current` and `"2026"`, and every frontend consumer (`dataAdapter.ts`,
`client.ts`, `TopMoversTable.tsx`, `PresentationSummary.tsx`,
`DriverPositionDistribution.tsx`) reads `race.current` and
`race["2026"]`. -/
def buildRaceEntry (eventName : String) (cur fut : List (String × DriverStats)) :
    List (String × RaceField) :=
  [("event_name", .label eventName), ("current", .scenario cur), ("2026", .scenario fut)]

/-! ## Full-pipeline orchestration -/

/-- Modelled from the spec: `main.py`'s orchestration (`simulate_races`)
is not under `src/`.  `gen` stands for numpy's `default_rng` — a fixed,
deterministic algorithm mapping a seed to its noise stream.  For every
event the simulator runs once on the baseline subset and once on the
scenario-transformed subset, with the shared fitted model and the default
draw count; any simulation error aborts the whole run. -/
def pipelineArtifact (gen : ℕ → NoiseEnv) (cfg : MCConfig) (model : Model)
    (events : List (String × String × Frame)) (drivers : List String) (seed : ℕ) :
    Except SimError (List (String × List (String × RaceField))) :=
  events.mapM fun e => do
    let accCur ← runAccumulator cfg model (gen seed) e.2.2 none
    let accFut ← runAccumulator cfg model (gen seed) (e.2.2.map apply_2026_regulations) none
    pure (e.1, buildRaceEntry e.2.1
      (summarisePredictions accCur drivers) (summarisePredictions accFut drivers))

/-! ## Column groups of the 25-feature table

The feature catalogue (README / `docs/FEATURES_25.md`) names the 25
columns.  `untouchedColumns` lists those whose names contain none of the
substring markers of `_perturb_features` (`pos`, `grid`, `rain`, `temp`,
`wind`, `pit`, `fuel`, `compound`): the venue, derived and context
columns, four of the five ruleset-parameter columns, and also the form
columns `points_last5` and `dnf_count_last5`, which match no marker. -/
def untouchedColumns : List String :=
  ["track_type_index", "corners", "straight_fraction", "overtaking_difficulty",
   "power_ratio", "aero_coeff", "weight_ratio", "tire_grip_ratio",
   "team_consistency_score", "driver_aggressiveness_index",
   "season_year", "round_number", "season_phase",
   "points_last5", "dnf_count_last5"]

/-! ## Concrete fixtures for witnesses and counterexamples -/

/-- A noise environment in which every Gaussian draw and every strategy
step is zero. -/
def zeroNoise : NoiseEnv where
  form := fun _ _ => 0
  weather := fun _ _ _ => 0
  strat := fun _ _ _ => 0

/-- A noise environment whose strategy step is `+1` everywhere. -/
def oneStepNoise : NoiseEnv where
  form := fun _ _ => 0
  weather := fun _ _ _ => 0
  strat := fun _ _ _ => 1

/-- A small configuration: 3 default draws, the calibrated sigmas of
`config.yaml`, seed 42. -/
def cfg3 : MCConfig where
  n_simulations := 3
  driver_form_sigma := 9/100
  weather_sigma := 1/10
  strategy_delta := 1/10
  random_seed := 42

def rowZero : Row := fun _ => 0

def rowOne : Row := fun _ => 1

/-- A stub predictor constantly returning position 2. -/
def model2 : Model := fun _ => 2

/-- A stub predictor constantly returning position 15. -/
def model15 : Model := fun _ => 15

def frame1 : Frame := [rowZero]

def frame2 : Frame := [rowZero, rowZero]

def genZero : ℕ → NoiseEnv := fun _ => zeroNoise

/-- A ten-row feature column with one missing entry; the non-missing
values sum to 50, so `colMean` — the value `fillna` imputes — is `50/9`. -/
def c8Col : List (Option ℚ) :=
  [some 1, some 2, some 3, some 4, some 6, some 7, some 8, some 9, some 10, none]

/-- Sweeps every possible 2-row holdout fold of `c8Col` (sklearn's
`test_size=0.2` on 10 rows holds out 2): for each choice of held-out row
indices `i < j`, the training-fold-only column mean differs from the
value `50/9` that `train_model`'s `fillna` actually imputes. -/
def c8SplitCheck : Bool :=
  (List.range 10).all fun i =>
    (List.range 10).all fun j =>
      !(decide (i < j)) ||
        decide (trainOnlyImputeValue ((c8Col.eraseIdx j).eraseIdx i) ≠ colMean c8Col)

/-! ## Helper lemmas: list minima and maxima -/

theorem foldl_min_le_init (t : List ℚ) (a : ℚ) : t.foldl min a ≤ a := by
  induction t generalizing a with
  | nil => exact le_refl a
  | cons b t ih => exact le_trans (ih (min a b)) (min_le_left a b)

theorem foldl_min_le_of_mem {x : ℚ} (t : List ℚ) (a : ℚ) (hx : x ∈ t) :
    t.foldl min a ≤ x := by
  induction t generalizing a with
  | nil => cases hx
  | cons b t ih =>
    rcases List.mem_cons.mp hx with rfl | hx'
    · exact le_trans (foldl_min_le_init t (min a x)) (min_le_right a x)
    · exact ih (min a b) hx'

theorem listMin_le {l : List ℚ} {x : ℚ} (hx : x ∈ l) : listMin l ≤ x := by
  cases l with
  | nil => cases hx
  | cons h t =>
    rcases List.mem_cons.mp hx with rfl | hx'
    · exact foldl_min_le_init t x
    · exact foldl_min_le_of_mem t h hx'

theorem init_le_foldl_max (t : List ℚ) (a : ℚ) : a ≤ t.foldl max a := by
  induction t generalizing a with
  | nil => exact le_refl a
  | cons b t ih => exact le_trans (le_max_left a b) (ih (max a b))

theorem mem_le_foldl_max {x : ℚ} (t : List ℚ) (a : ℚ) (hx : x ∈ t) :
    x ≤ t.foldl max a := by
  induction t generalizing a with
  | nil => cases hx
  | cons b t ih =>
    rcases List.mem_cons.mp hx with rfl | hx'
    · exact le_trans (le_max_right a x) (init_le_foldl_max t (max a x))
    · exact ih (max a b) hx'

theorem le_listMax {l : List ℚ} {x : ℚ} (hx : x ∈ l) : x ≤ listMax l := by
  cases l with
  | nil => cases hx
  | cons h t =>
    rcases List.mem_cons.mp hx with rfl | hx'
    · exact init_le_foldl_max t x
    · exact mem_le_foldl_max t h hx'

/-! ## Helper lemmas: sorted indexing -/

theorem sortedGetD_mono {s : List ℚ} (hs : s.Sorted (· ≤ ·)) {i j : ℕ}
    (hij : i ≤ j) (hj : j < s.length) : s.getD i 0 ≤ s.getD j 0 := by
  have hi : i < s.length := Nat.lt_of_le_of_lt hij hj
  rw [List.getD_eq_getElem _ _ hi, List.getD_eq_getElem _ _ hj]
  have h := hs.rel_get_of_le (a := ⟨i, hi⟩) (b := ⟨j, hj⟩) (Fin.mk_le_mk.mpr hij)
  simpa [List.get_eq_getElem] using h

theorem getD_mem {s : List ℚ} {i : ℕ} (hi : i < s.length) : s.getD i 0 ∈ s := by
  rw [List.getD_eq_getElem _ _ hi]
  exact List.getElem_mem hi

/-! ## Helper lemmas: the NumPy percentile interpolation -/

theorem ceilIdx_lt {s : List ℚ} {h : ℚ} (hn : 1 ≤ s.length)
    (hub : h ≤ (s.length : ℚ) - 1) : ⌈h⌉.toNat < s.length := by
  have hc : ⌈h⌉ ≤ (s.length : ℤ) - 1 := by
    apply Int.ceil_le.mpr
    push_cast
    exact hub
  omega

theorem floorIdx_lt {s : List ℚ} {h : ℚ} (hn : 1 ≤ s.length)
    (hub : h ≤ (s.length : ℚ) - 1) : ⌊h⌋.toNat < s.length := by
  have hc : ⌈h⌉ ≤ (s.length : ℤ) - 1 := by
    apply Int.ceil_le.mpr
    push_cast
    exact hub
  have hfc : ⌊h⌋ ≤ ⌈h⌉ := Int.floor_le_ceil h
  omega

theorem floorIdx_le_ceilIdx {h : ℚ} : ⌊h⌋.toNat ≤ ⌈h⌉.toNat := by
  have hfc : ⌊h⌋ ≤ ⌈h⌉ := Int.floor_le_ceil h
  omega

theorem frac_nonneg (h : ℚ) : 0 ≤ h - ⌊h⌋ := sub_nonneg.mpr (Int.floor_le h)

theorem frac_le_one (h : ℚ) : h - ⌊h⌋ ≤ 1 := by
  have hlt := Int.lt_floor_add_one h
  linarith

theorem interp_ge {s : List ℚ} {h : ℚ} (hs : s.Sorted (· ≤ ·))
    (hn : 1 ≤ s.length) (hub : h ≤ (s.length : ℚ) - 1) :
    s.getD ⌊h⌋.toNat 0 ≤ interp s h := by
  have hab : s.getD ⌊h⌋.toNat 0 ≤ s.getD ⌈h⌉.toNat 0 :=
    sortedGetD_mono hs floorIdx_le_ceilIdx (ceilIdx_lt hn hub)
  have hf := frac_nonneg h
  unfold interp
  nlinarith [mul_nonneg hf (sub_nonneg.mpr hab)]

theorem interp_le {s : List ℚ} {h : ℚ} (hs : s.Sorted (· ≤ ·))
    (hn : 1 ≤ s.length) (hub : h ≤ (s.length : ℚ) - 1) :
    interp s h ≤ s.getD ⌈h⌉.toNat 0 := by
  have hab : s.getD ⌊h⌋.toNat 0 ≤ s.getD ⌈h⌉.toNat 0 :=
    sortedGetD_mono hs floorIdx_le_ceilIdx (ceilIdx_lt hn hub)
  have hf := frac_le_one h
  unfold interp
  nlinarith [mul_nonneg (by linarith : (0:ℚ) ≤ 1 - (h - ⌊h⌋)) (sub_nonneg.mpr hab)]

theorem interp_mono {s : List ℚ} {h₁ h₂ : ℚ} (hs : s.Sorted (· ≤ ·))
    (hn : 1 ≤ s.length) (h12 : h₁ ≤ h₂) (hub : h₂ ≤ (s.length : ℚ) - 1) :
    interp s h₁ ≤ interp s h₂ := by
  have hub1 : h₁ ≤ (s.length : ℚ) - 1 := le_trans h12 hub
  have hfl : ⌊h₁⌋ ≤ ⌊h₂⌋ := Int.floor_le_floor h12
  rcases lt_or_eq_of_le hfl with hlt | heq
  · have u1 : interp s h₁ ≤ s.getD ⌈h₁⌉.toNat 0 := interp_le hs hn hub1
    have l2 : s.getD ⌊h₂⌋.toNat 0 ≤ interp s h₂ := interp_ge hs hn hub
    have mid : s.getD ⌈h₁⌉.toNat 0 ≤ s.getD ⌊h₂⌋.toNat 0 := by
      apply sortedGetD_mono hs
      · have c1 : ⌈h₁⌉ ≤ ⌊h₁⌋ + 1 := Int.ceil_le_floor_add_one h₁
        omega
      · exact floorIdx_lt hn hub
    linarith
  · by_cases hc2 : ⌈h₂⌉ = ⌊h₂⌋
    · have e2 : h₂ = (⌊h₂⌋ : ℚ) := by
        have hle := Int.le_ceil h₂
        rw [hc2] at hle
        exact le_antisymm hle (Int.floor_le h₂)
      have e1 : h₁ = h₂ := by
        apply le_antisymm h12
        rw [e2, ← heq]
        exact Int.floor_le h₁
      rw [e1]
    · have hc2' : ⌈h₂⌉ = ⌊h₂⌋ + 1 := by
        have hub' := Int.ceil_le_floor_add_one h₂
        have hlb := Int.floor_le_ceil h₂
        omega
      by_cases hc1 : ⌈h₁⌉ = ⌊h₁⌋
      · have e1 : h₁ = (⌊h₁⌋ : ℚ) := by
          have hle := Int.le_ceil h₁
          rw [hc1] at hle
          exact le_antisymm hle (Int.floor_le h₁)
        have l2 : s.getD ⌊h₂⌋.toNat 0 ≤ interp s h₂ := interp_ge hs hn hub
        have v1 : interp s h₁ = s.getD ⌊h₁⌋.toNat 0 := by
          have hz : h₁ - (⌊h₁⌋ : ℚ) = 0 := by rw [← e1] at *; linarith
          unfold interp
          rw [hz, zero_mul, add_zero]
        rw [v1, heq]
        exact l2
      · have hc1' : ⌈h₁⌉ = ⌊h₁⌋ + 1 := by
          have hub' := Int.ceil_le_floor_add_one h₁
          have hlb := Int.floor_le_ceil h₁
          omega
        have hfeq : ⌈h₁⌉ = ⌈h₂⌉ := by rw [hc1', hc2', heq]
        have hba : s.getD ⌊h₁⌋.toNat 0 ≤ s.getD ⌈h₁⌉.toNat 0 :=
          sortedGetD_mono hs floorIdx_le_ceilIdx (ceilIdx_lt hn hub1)
        unfold interp
        rw [← heq, ← hfeq]
        have key := mul_le_mul_of_nonneg_right
          (sub_le_sub_right h12 ((⌊h₁⌋ : ℤ) : ℚ)) (sub_nonneg.mpr hba)
        linarith

/-! ## Helper lemmas: percentile of an unsorted distribution -/

theorem percPos_nonneg {l : List ℚ} {q : ℚ} (hn : 1 ≤ l.length) (hq0 : 0 ≤ q) :
    0 ≤ percPos l q := by
  have h1 : (1 : ℚ) ≤ (l.length : ℚ) := by exact_mod_cast hn
  unfold percPos
  have := mul_nonneg (by linarith : (0:ℚ) ≤ (l.length : ℚ) - 1) hq0
  positivity

theorem percPos_le {l : List ℚ} {q : ℚ} (hn : 1 ≤ l.length)
    (hq1 : q ≤ 100) : percPos l q ≤ (l.length : ℚ) - 1 := by
  have h1 : (1 : ℚ) ≤ (l.length : ℚ) := by exact_mod_cast hn
  unfold percPos
  rw [div_le_iff₀ (by norm_num : (0:ℚ) < 100)]
  nlinarith

theorem percPos_mono {l : List ℚ} {q₁ q₂ : ℚ} (hn : 1 ≤ l.length) (h12 : q₁ ≤ q₂) :
    percPos l q₁ ≤ percPos l q₂ := by
  have h1 : (1 : ℚ) ≤ (l.length : ℚ) := by exact_mod_cast hn
  unfold percPos
  apply div_le_div_of_nonneg_right ?_ (by norm_num)
  · exact mul_le_mul_of_nonneg_left h12 (by linarith)

theorem percentile_mono (l : List ℚ) (hne : l ≠ []) {q₁ q₂ : ℚ}
    (h12 : q₁ ≤ q₂) (hq1 : q₂ ≤ 100) : percentile l q₁ ≤ percentile l q₂ := by
  have hs : (l.insertionSort (· ≤ ·)).Sorted (· ≤ ·) := List.sorted_insertionSort _ _
  have hn : 1 ≤ (l.insertionSort (· ≤ ·)).length := by
    rw [List.length_insertionSort]
    have := List.length_pos.mpr hne
    omega
  unfold percentile percSorted
  exact interp_mono hs hn (percPos_mono hn h12) (percPos_le hn hq1)

theorem listMin_le_percentile (l : List ℚ) (hne : l ≠ []) {q : ℚ}
    (hq1 : q ≤ 100) : listMin l ≤ percentile l q := by
  have hs : (l.insertionSort (· ≤ ·)).Sorted (· ≤ ·) := List.sorted_insertionSort _ _
  have hn : 1 ≤ (l.insertionSort (· ≤ ·)).length := by
    rw [List.length_insertionSort]
    have := List.length_pos.mpr hne
    omega
  have hub := percPos_le (l := l.insertionSort (· ≤ ·)) hn (q := q) hq1
  have hmem : (l.insertionSort (· ≤ ·)).getD ⌊percPos (l.insertionSort (· ≤ ·)) q⌋.toNat 0 ∈ l :=
    (List.mem_insertionSort _).mp (getD_mem (floorIdx_lt hn hub))
  exact le_trans (listMin_le hmem) (interp_ge hs hn hub)

theorem percentile_le_listMax (l : List ℚ) (hne : l ≠ []) {q : ℚ}
    (hq1 : q ≤ 100) : percentile l q ≤ listMax l := by
  have hs : (l.insertionSort (· ≤ ·)).Sorted (· ≤ ·) := List.sorted_insertionSort _ _
  have hn : 1 ≤ (l.insertionSort (· ≤ ·)).length := by
    rw [List.length_insertionSort]
    have := List.length_pos.mpr hne
    omega
  have hub := percPos_le (l := l.insertionSort (· ≤ ·)) hn (q := q) hq1
  have hmem : (l.insertionSort (· ≤ ·)).getD ⌈percPos (l.insertionSort (· ≤ ·)) q⌉.toNat 0 ∈ l :=
    (List.mem_insertionSort _).mp (getD_mem (ceilIdx_lt hn hub))
  exact le_trans (interp_le hs hn hub) (le_listMax hmem)

theorem countLe_mono {τ₁ τ₂ : ℚ} (l : List ℚ) (h : τ₁ ≤ τ₂) :
    countLe τ₁ l ≤ countLe τ₂ l := by
  apply List.countP_mono_left
  intro x _ hx
  simp only [decide_eq_true_eq] at hx ⊢
  linarith

/-- C9: for every fixed distribution of per-entity draw values, the
statistics computed by `_summarise_predictions` satisfy
`min ≤ percentile_5 ≤ median ≤ percentile_95 ≤ max` and
`0 ≤ top3_probability ≤ top5_probability ≤ 1`. -/
theorem summarise_aggregation_consistency (dist : List ℚ) (hne : dist ≠ []) :
    (summariseDistribution dist).min ≤ (summariseDistribution dist).percentile_5 ∧
    (summariseDistribution dist).percentile_5 ≤ (summariseDistribution dist).median ∧
    (summariseDistribution dist).median ≤ (summariseDistribution dist).percentile_95 ∧
    (summariseDistribution dist).percentile_95 ≤ (summariseDistribution dist).max ∧
    0 ≤ (summariseDistribution dist).top3_probability ∧
    (summariseDistribution dist).top3_probability ≤ (summariseDistribution dist).top5_probability ∧
    (summariseDistribution dist).top5_probability ≤ 1 := by
  have hlen : 0 < dist.length := List.length_pos.mpr hne
  refine ⟨?_, ?_, ?_, ?_, ?_, ?_, ?_⟩
  · exact listMin_le_percentile dist hne (by norm_num)
  · exact percentile_mono dist hne (by norm_num) (by norm_num)
  · exact percentile_mono dist hne (by norm_num) (by norm_num)
  · exact percentile_le_listMax dist hne (by norm_num)
  · exact div_nonneg (Nat.cast_nonneg _) (Nat.cast_nonneg _)
  · apply div_le_div_of_nonneg_right ?_ (Nat.cast_nonneg _)
    · exact_mod_cast countLe_mono dist (by norm_num : (3:ℚ) ≤ 5)
  · apply div_le_one_of_le₀
    · exact_mod_cast List.countP_le_length _
    · exact Nat.cast_nonneg _

/-- Witness for C9 at the concrete distribution `[3, 1, 2]`. -/
theorem summarise_aggregation_consistency_witness :
    ([3, 1, 2] : List ℚ) ≠ [] ∧
    ((summariseDistribution [3, 1, 2]).min ≤ (summariseDistribution [3, 1, 2]).percentile_5 ∧
     (summariseDistribution [3, 1, 2]).percentile_5 ≤ (summariseDistribution [3, 1, 2]).median ∧
     (summariseDistribution [3, 1, 2]).median ≤ (summariseDistribution [3, 1, 2]).percentile_95 ∧
     (summariseDistribution [3, 1, 2]).percentile_95 ≤ (summariseDistribution [3, 1, 2]).max ∧
     0 ≤ (summariseDistribution [3, 1, 2]).top3_probability ∧
     (summariseDistribution [3, 1, 2]).top3_probability ≤
       (summariseDistribution [3, 1, 2]).top5_probability ∧
     (summariseDistribution [3, 1, 2]).top5_probability ≤ 1) :=
  ⟨by decide, summarise_aggregation_consistency [3, 1, 2] (by decide)⟩

/-! ## The accumulator built by `run` -/

theorem simDraw_getD (cfg : MCConfig) (model : Model) (noise : NoiseEnv)
    (frame : Frame) (s i : ℕ) (hi : i < frame.length) :
    (simDraw cfg model noise frame s).getD i 0
      = drawValue cfg model noise s i (frame.get ⟨i, hi⟩) := by
  have hlen : (simDraw cfg model noise frame s).length = frame.length := by
    simp [simDraw]
  rw [List.getD_eq_getElem _ _ (by rw [hlen]; exact hi)]
  simp [simDraw, List.getElem_map, List.getElem_enum, List.get_eq_getElem]

/-- C1: for every successful run of the Monte Carlo aggregation and every
entity, `top3_probability` (resp. `top5_probability`) equals the fraction
of draws in which that entity's raw clipped predicted value (`drawValue`,
i.e. `np.clip(model.predict(perturbed), 1, 20)` at that entity's row) is
`≤ 3` (resp. `≤ 5`) — computed from that entity's column alone, with no
cross-entity comparison or within-draw ranking. -/
theorem top_probabilities_raw_threshold (cfg : MCConfig) (model : Model)
    (noise : NoiseEnv) (frame : Frame) (nArg : Option ℤ) (acc : List (List ℚ))
    (hrun : runAccumulator cfg model noise frame nArg = .ok acc)
    (i : ℕ) (hi : i < frame.length) :
    (summariseDistribution (acc.map fun d => d.getD i 0)).top3_probability
      = ((List.range acc.length).countP
          (fun s => decide (drawValue cfg model noise s i (frame.get ⟨i, hi⟩) ≤ 3)) : ℚ)
        / acc.length ∧
    (summariseDistribution (acc.map fun d => d.getD i 0)).top5_probability
      = ((List.range acc.length).countP
          (fun s => decide (drawValue cfg model noise s i (frame.get ⟨i, hi⟩) ≤ 5)) : ℚ)
        / acc.length := by
  unfold runAccumulator at hrun
  by_cases hneg : nSims cfg nArg < 0
  · simp [hneg] at hrun
  · simp only [if_neg hneg] at hrun
    obtain rfl : acc = (List.range (nSims cfg nArg).toNat).map (simDraw cfg model noise frame) :=
      (Except.ok.injEq _ _ |>.mp hrun).symm
    have hcol : ((List.range (nSims cfg nArg).toNat).map (simDraw cfg model noise frame)).map
        (fun d => d.getD i 0)
        = (List.range (nSims cfg nArg).toNat).map
            (fun s => drawValue cfg model noise s i (frame.get ⟨i, hi⟩)) := by
      rw [List.map_map]
      exact List.map_congr_left fun s _ => simDraw_getD cfg model noise frame s i hi
    constructor
    · show (countLe 3 _ : ℚ) / _ = _
      rw [hcol]
      simp only [countLe, List.countP_map, List.length_map, List.length_range]
      rfl
    · show (countLe 5 _ : ℚ) / _ = _
      rw [hcol]
      simp only [countLe, List.countP_map, List.length_map, List.length_range]
      rfl

/-- Witness for C1: two draws of a constant-2 predictor on a one-entity
frame; both probabilities are the fraction `2/2 = 1`. -/
theorem top_probabilities_raw_threshold_witness :
    runAccumulator cfg3 model2 zeroNoise frame1 (some 2) = .ok [[2], [2]] ∧
    0 < frame1.length ∧
    ((summariseDistribution (([[2], [2]] : List (List ℚ)).map fun d => d.getD 0 0)).top3_probability
      = ((List.range ([[2], [2]] : List (List ℚ)).length).countP
          (fun s => decide (drawValue cfg3 model2 zeroNoise s 0 (frame1.get ⟨0, by decide⟩) ≤ 3)) : ℚ)
        / ([[2], [2]] : List (List ℚ)).length ∧
     (summariseDistribution (([[2], [2]] : List (List ℚ)).map fun d => d.getD 0 0)).top5_probability
      = ((List.range ([[2], [2]] : List (List ℚ)).length).countP
          (fun s => decide (drawValue cfg3 model2 zeroNoise s 0 (frame1.get ⟨0, by decide⟩) ≤ 5)) : ℚ)
        / ([[2], [2]] : List (List ℚ)).length) :=
  ⟨rfl, by decide,
    top_probabilities_raw_threshold cfg3 model2 zeroNoise frame1 (some 2) [[2], [2]]
      rfl 0 (by decide)⟩

/-- Counterexample to C2 as stated: on a 2-entity frame, a predictor
returning 15 stores the clipped value 15 in the accumulator, and
`15 ∉ [1, N_entities] = [1, 2]` — `run` clips to the fixed interval
`[1, 20]`, not to `[1, N_entities]`. -/
theorem clip_bound_counterexample :
    runAccumulator cfg3 model15 zeroNoise frame2 (some 1) = .ok [[15, 15]] ∧
    frame2.length = 2 ∧ ¬ ((15 : ℚ) ≤ 2) :=
  ⟨rfl, rfl, by norm_num⟩

/-- C2 amended: every value stored in the draw accumulator lies in the
fixed closed interval `[1, 20]` hard-coded in
`np.clip(self.model.predict(perturbed), 1.0, 20.0)`, for all draw counts,
frames and noise. -/
theorem clip_bound_invariant (cfg : MCConfig) (model : Model) (noise : NoiseEnv)
    (frame : Frame) (nArg : Option ℤ) (acc : List (List ℚ))
    (hrun : runAccumulator cfg model noise frame nArg = .ok acc)
    {draw : List ℚ} (hd : draw ∈ acc) {v : ℚ} (hv : v ∈ draw) :
    1 ≤ v ∧ v ≤ 20 := by
  unfold runAccumulator at hrun
  by_cases hneg : nSims cfg nArg < 0
  · simp [hneg] at hrun
  · simp only [if_neg hneg] at hrun
    obtain rfl : acc = (List.range (nSims cfg nArg).toNat).map (simDraw cfg model noise frame) :=
      (Except.ok.injEq _ _ |>.mp hrun).symm
    rcases List.mem_map.mp hd with ⟨s, _, rfl⟩
    rcases List.mem_map.mp hv with ⟨p, _, rfl⟩
    unfold drawValue clip
    constructor
    · exact le_min (by norm_num) (le_max_left _ _)
    · exact min_le_left _ _

/-- Witness for C2 (amended) at the stored value 2 of the two-draw run. -/
theorem clip_bound_invariant_witness :
    runAccumulator cfg3 model2 zeroNoise frame1 (some 2) = .ok [[2], [2]] ∧
    ([2] : List ℚ) ∈ ([[2], [2]] : List (List ℚ)) ∧ (2 : ℚ) ∈ ([2] : List ℚ) ∧
    (1 ≤ (2 : ℚ) ∧ (2 : ℚ) ≤ 20) :=
  ⟨rfl, by decide, by decide,
    @clip_bound_invariant cfg3 model2 zeroNoise frame1 (some 2) [[2], [2]]
      rfl [2] (by decide) 2 (by decide)⟩

/-! ## Draw-count semantics of `n_simulations or config.n_simulations` -/

/-- Counterexample to C6 as stated: calling `run` with `n_simulations = 0`
raises nothing — Python's `0 or self.config.n_simulations` is the
configured default, so the run succeeds and executes
`cfg3.n_simulations = 3` draws. -/
theorem zero_draws_no_error :
    runAccumulator cfg3 model2 zeroNoise frame1 (some 0) = .ok [[2], [2], [2]] ∧
    cfg3.n_simulations = 3 ∧ ([[2], [2], [2]] : List (List ℚ)).length = 3 :=
  ⟨rfl, rfl, rfl⟩

/-- C6 amended: calling `run` with `n_simulations = 0` does not raise; the
falsy argument falls back to the configured default, the call behaves
exactly like omitting the argument, and `config.n_simulations` draws are
executed. -/
theorem zero_draws_fallback (cfg : MCConfig) (model : Model) (noise : NoiseEnv)
    (frame : Frame) (h : 0 ≤ cfg.n_simulations) :
    runAccumulator cfg model noise frame (some 0)
      = runAccumulator cfg model noise frame none ∧
    runAccumulator cfg model noise frame (some 0)
      = .ok ((List.range cfg.n_simulations.toNat).map (simDraw cfg model noise frame)) ∧
    (((List.range cfg.n_simulations.toNat).map (simDraw cfg model noise frame)).length : ℤ)
      = cfg.n_simulations := by
  have hn : nSims cfg (some 0) = cfg.n_simulations := by simp [nSims]
  refine ⟨?_, ?_, ?_⟩
  · rfl
  · unfold runAccumulator
    rw [hn, if_neg (by omega)]
  · rw [List.length_map, List.length_range]
    exact Int.toNat_of_nonneg h

/-- Witness for C6 (amended) at the 3-draw configuration. -/
theorem zero_draws_fallback_witness :
    (0 ≤ cfg3.n_simulations) ∧
    (runAccumulator cfg3 model2 zeroNoise frame1 (some 0)
      = runAccumulator cfg3 model2 zeroNoise frame1 none ∧
     runAccumulator cfg3 model2 zeroNoise frame1 (some 0)
      = .ok ((List.range cfg3.n_simulations.toNat).map (simDraw cfg3 model2 zeroNoise frame1)) ∧
     (((List.range cfg3.n_simulations.toNat).map (simDraw cfg3 model2 zeroNoise frame1)).length : ℤ)
      = cfg3.n_simulations) :=
  ⟨by decide, zero_draws_fallback cfg3 model2 zeroNoise frame1 (by decide)⟩

/-- C10: whenever the `n_simulations` argument of `run` is omitted,
`None`, or zero, the number of draws actually executed equals the
configured default `config.n_simulations`. -/
theorem default_draw_count (cfg : MCConfig) (model : Model) (noise : NoiseEnv)
    (frame : Frame) (nArg : Option ℤ)
    (hn : nArg = none ∨ nArg = some 0) (h0 : 0 ≤ cfg.n_simulations) :
    runAccumulator cfg model noise frame nArg
      = .ok ((List.range cfg.n_simulations.toNat).map (simDraw cfg model noise frame)) ∧
    (((List.range cfg.n_simulations.toNat).map (simDraw cfg model noise frame)).length : ℤ)
      = cfg.n_simulations := by
  have hns : nSims cfg nArg = cfg.n_simulations := by
    rcases hn with rfl | rfl <;> simp [nSims]
  constructor
  · unfold runAccumulator
    rw [hns, if_neg (by omega)]
  · rw [List.length_map, List.length_range]
    exact Int.toNat_of_nonneg h0

/-- Witness for C10 with the argument omitted (`none`). -/
theorem default_draw_count_witness :
    ((none : Option ℤ) = none ∨ (none : Option ℤ) = some 0) ∧
    (0 ≤ cfg3.n_simulations) ∧
    (runAccumulator cfg3 model2 zeroNoise frame1 none
      = .ok ((List.range cfg3.n_simulations.toNat).map (simDraw cfg3 model2 zeroNoise frame1)) ∧
     (((List.range cfg3.n_simulations.toNat).map (simDraw cfg3 model2 zeroNoise frame1)).length : ℤ)
      = cfg3.n_simulations) :=
  ⟨Or.inl rfl, by decide,
    default_draw_count cfg3 model2 zeroNoise frame1 none (Or.inl rfl) (by decide)⟩

/-! ## Frame effect of `_perturb_features` -/

/-- Counterexample to C3 as stated: `"fuel" in "fuel_flow_ratio"` makes
the ruleset-parameter column `fuel_flow_ratio` a strategy column, so a
draw whose strategy step is `+1` changes it from `1` to `1 + 0.1 = 1.1`
(and likewise `fuel_efficiency_rating`) — it does not keep its original
value. -/
theorem perturb_touches_fuel_columns :
    rowOne "fuel_flow_ratio" = 1 ∧
    perturbRow cfg3 0 (fun _ => 0) (fun _ => 1) rowOne "fuel_flow_ratio" = 11/10 ∧
    ¬ ((11/10 : ℚ) = 1) ∧
    perturbRow cfg3 0 (fun _ => 0) (fun _ => 1) rowOne "fuel_efficiency_rating" = 11/10 := by
  refine ⟨rfl, ?_, by norm_num, ?_⟩
  · with_unfolding_all rfl
  · with_unfolding_all rfl

/-- C3 amended: per draw, the perturbation changes only columns whose
names contain one of the substring markers; every column of the
25-feature table containing no marker — all venue, derived and context
columns, the ruleset columns other than `fuel_flow_ratio`, and also
`points_last5` / `dnf_count_last5` — keeps its original value, while
`fuel_flow_ratio` and `fuel_efficiency_rating` match the `"fuel"`
strategy marker and receive the strategy delta. -/
theorem perturb_frame_effect (cfg : MCConfig) (fN : ℚ) (wN sS : String → ℚ) (row : Row) :
    (∀ c ∈ untouchedColumns, perturbRow cfg fN wN sS row c = row c) ∧
    perturbRow cfg fN wN sS row "fuel_flow_ratio"
      = row "fuel_flow_ratio" + sS "fuel_flow_ratio" * cfg.strategy_delta ∧
    perturbRow cfg fN wN sS row "fuel_efficiency_rating"
      = row "fuel_efficiency_rating" + sS "fuel_efficiency_rating" * cfg.strategy_delta := by
  have hcls : ∀ c ∈ untouchedColumns,
      isFormCol c = false ∧ isWeatherCol c = false ∧ isStrategyCol c = false := by decide
  refine ⟨?_, ?_, ?_⟩
  · intro c hc
    obtain ⟨h1, h2, h3⟩ := hcls c hc
    simp [perturbRow, h1, h2, h3]
  · have h1 : isFormCol "fuel_flow_ratio" = false := by decide
    have h2 : isWeatherCol "fuel_flow_ratio" = false := by decide
    have h3 : isStrategyCol "fuel_flow_ratio" = true := by decide
    simp [perturbRow, h1, h2, h3]
  · have h1 : isFormCol "fuel_efficiency_rating" = false := by decide
    have h2 : isWeatherCol "fuel_efficiency_rating" = false := by decide
    have h3 : isStrategyCol "fuel_efficiency_rating" = true := by decide
    simp [perturbRow, h1, h2, h3]

/-- Witness for C3 (amended): with arbitrary nonzero noise, the ruleset
column `power_ratio` is untouched. -/
theorem perturb_frame_effect_witness :
    "power_ratio" ∈ untouchedColumns ∧
    perturbRow cfg3 (1/2) (fun _ => 1/3) (fun _ => 1) rowOne "power_ratio"
      = rowOne "power_ratio" :=
  ⟨by decide,
    (perturb_frame_effect cfg3 (1/2) (fun _ => 1/3) (fun _ => 1) rowOne).1
      "power_ratio" (by decide)⟩

/-! ## The 2026 scenario transform -/

/-- C4: applying the future scenario multiplies exactly the five
ruleset-parameter columns by their fixed multipliers (power ×3.33,
aero ×0.70, weight ×0.962, fuel-flow ×0.75, tire-grip ×0.94), leaves
every other column unchanged, and maps `power_ratio = 0.15` to
`0.4995`. -/
theorem apply_2026_regulations_spec (row : Row) :
    apply_2026_regulations row "power_ratio" = row "power_ratio" * (333/100) ∧
    apply_2026_regulations row "aero_coeff" = row "aero_coeff" * (70/100) ∧
    apply_2026_regulations row "weight_ratio" = row "weight_ratio" * (962/1000) ∧
    apply_2026_regulations row "fuel_flow_ratio" = row "fuel_flow_ratio" * (75/100) ∧
    apply_2026_regulations row "tire_grip_ratio" = row "tire_grip_ratio" * (94/100) ∧
    (∀ c, c ∉ REGULATION_MULTIPLIERS.map Prod.fst → apply_2026_regulations row c = row c) ∧
    (row "power_ratio" = 15/100 → apply_2026_regulations row "power_ratio" = 4995/10000) := by
  have hpow : apply_2026_regulations row "power_ratio" = row "power_ratio" * (333/100) := rfl
  refine ⟨hpow, rfl, rfl, rfl, rfl, ?_, ?_⟩
  · intro c hc
    simp only [REGULATION_MULTIPLIERS, List.map_cons, List.map_nil, List.mem_cons,
      List.mem_singleton, not_or] at hc
    obtain ⟨n1, n2, n3, n4, n5, -⟩ := hc
    have b1 : (c == "power_ratio") = false := beq_eq_false_iff_ne.mpr n1
    have b2 : (c == "aero_coeff") = false := beq_eq_false_iff_ne.mpr n2
    have b3 : (c == "weight_ratio") = false := beq_eq_false_iff_ne.mpr n3
    have b4 : (c == "fuel_flow_ratio") = false := beq_eq_false_iff_ne.mpr n4
    have b5 : (c == "tire_grip_ratio") = false := beq_eq_false_iff_ne.mpr n5
    simp [apply_2026_regulations, REGULATION_MULTIPLIERS, List.lookup, b1, b2, b3, b4, b5]
  · intro h
    rw [hpow, h]
    norm_num

/-- Witness for C4: on a row whose every column is `0.15`, the power
ratio becomes `0.4995` and the non-ruleset column `corners` is
unchanged. -/
theorem apply_2026_regulations_spec_witness :
    "corners" ∉ REGULATION_MULTIPLIERS.map Prod.fst ∧
    apply_2026_regulations (fun _ => (15/100 : ℚ)) "corners" = 15/100 ∧
    apply_2026_regulations (fun _ => (15/100 : ℚ)) "power_ratio" = 4995/10000 :=
  ⟨by decide,
    (apply_2026_regulations_spec (fun _ => (15/100 : ℚ))).2.2.2.2.2.1 "corners" (by decide),
    (apply_2026_regulations_spec (fun _ => (15/100 : ℚ))).2.2.2.2.2.2 rfl⟩

/-! ## Shape of the result artifact -/

/-- Counterexample to C5 as stated: the per-event object of the artifact
carries the scenario keys `current` and `"2026"`; `"future"` is not among
its keys. -/
theorem scenario_key_counterexample :
    (buildRaceEntry "Bahrain Grand Prix" [] []).map Prod.fst
      = ["event_name", "current", "2026"] ∧
    "future" ∉ (buildRaceEntry "Bahrain Grand Prix" [] []).map Prod.fst :=
  ⟨rfl, by decide⟩

/-- C5 amended: each per-event object has exactly the keys `event_name`,
`current` and `"2026"` (not `future`), the scenario blocks map entity
identifiers to their statistics, and the per-entity dict of
`_summarise_predictions` has exactly the nine numeric fields `mean, std,
median, min, max, percentile_5, percentile_95, top3_probability,
top5_probability`. -/
theorem artifact_schema (eventName : String) (cur fut : List (String × DriverStats)) :
    (buildRaceEntry eventName cur fut).map Prod.fst = ["event_name", "current", "2026"] ∧
    (buildRaceEntry eventName cur fut).lookup "current" = some (.scenario cur) ∧
    (buildRaceEntry eventName cur fut).lookup "2026" = some (.scenario fut) ∧
    (buildRaceEntry eventName cur fut).lookup "future" = none ∧
    statKeys = ["mean", "std", "median", "min", "max", "percentile_5",
      "percentile_95", "top3_probability", "top5_probability"] :=
  ⟨rfl, rfl, rfl, rfl, rfl⟩

/-! ## Determinism of the full pipeline -/

/-- C7: the pipeline artifact is a pure function of its inputs and the
seed-derived generator stream — two runs on identical inputs with
identical `random_seed` yield identical artifacts. -/
theorem pipeline_deterministic (gen : ℕ → NoiseEnv) (cfg : MCConfig) (model : Model)
    (events : List (String × String × Frame)) (drivers : List String) (s₁ s₂ : ℕ)
    (h : s₁ = s₂) :
    pipelineArtifact gen cfg model events drivers s₁
      = pipelineArtifact gen cfg model events drivers s₂ := by
  rw [h]

/-- Witness for C7 at seed 42 on a one-event table. -/
theorem pipeline_deterministic_witness :
    (42 = 42) ∧
    pipelineArtifact genZero cfg3 model2 [("2024_R01", "Bahrain Grand Prix", frame1)] ["VER"] 42
      = pipelineArtifact genZero cfg3 model2 [("2024_R01", "Bahrain Grand Prix", frame1)] ["VER"] 42 :=
  ⟨rfl, pipeline_deterministic genZero cfg3 model2
    [("2024_R01", "Bahrain Grand Prix", frame1)] ["VER"] 42 42 rfl⟩

/-! ## Imputation in `train_model` -/

/-- Counterexample to C8 as stated: on `c8Col`, `train_model`'s `fillna`
imputes the missing entry (row 9) with the full-table mean `50/9`; yet
for *every* possible 2-row holdout fold (sklearn's `test_size=0.2` on 10
rows), the mean computed over the training fold only differs from
`50/9` — so the imputed value has contributions from rows outside the
training fold. -/
theorem imputation_leaks_holdout_rows :
    colMean c8Col = 50/9 ∧
    c8Col.getD 9 (some 0) = none ∧
    (fillnaMean c8Col).getD 9 0 = 50/9 ∧
    c8SplitCheck = true :=
  ⟨by with_unfolding_all rfl, rfl, by with_unfolding_all rfl, by with_unfolding_all rfl⟩

/-- C8 amended: every missing value in a feature column is imputed with
that column's mean computed over the *entire* table passed to
`train_model` — the `fillna` runs before the 80/20 train/holdout split,
so holdout rows contribute to the mean. -/
theorem imputation_full_table_mean (col : List (Option ℚ)) (i : ℕ) (hi : i < col.length)
    (hmiss : col.get ⟨i, hi⟩ = none) :
    (fillnaMean col).getD i 0 = colMean col := by
  unfold fillnaMean
  rw [List.getD_eq_getElem _ _ (by simpa using hi)]
  rw [List.getElem_map]
  rw [List.get_eq_getElem] at hmiss
  rw [hmiss]
  rfl

/-- Witness for C8 (amended): a two-row column with one missing value. -/
theorem imputation_full_table_mean_witness :
    1 < ([some 1, none] : List (Option ℚ)).length ∧
    ([some 1, none] : List (Option ℚ)).get ⟨1, by decide⟩ = none ∧
    (fillnaMean [some 1, none]).getD 1 0 = colMean [some 1, none] :=
  ⟨by decide, rfl, imputation_full_table_mean [some 1, none] 1 (by decide) rfl⟩

end F1Sim
